import Mathlib

/-!
Verification development for the kinshi entity-component store.

The Go sources are shallowly embedded: Go maps (`map[string]interface{}`,
`map[string]typeMeta`) become association lists keyed by `String`, `uint64`
arithmetic is `Nat` with an explicit `% 2^64`, fallible operations return the
Go `(value, error)` pairs as products with `Option GoErr`, and methods that
mutate their receiver return the updated value.  Component payloads are
abstract; a `Nat` stands for the component's data.
-/

namespace Kinshi

/-- The sentinel errors of ecs.go (`ErrNotFound`, `ErrNoID`, `ErrAlreadyExists`)
together with ad-hoc `fmt.Errorf` errors. -/
inductive GoErr where
  | notFound
  | noId
  | alreadyExists
  | other (msg : String)
  deriving DecidableEq, Repr

/-- Abstract payload of one component value. -/
abbrev CompVal := Nat

/-- A Go `map[string]interface{}` holding component values, modelled as an
association list from component type name to value. -/
abbrev CompTable := List (String × CompVal)

/-- Association-list lookup: the value stored under key `n`, mirroring a Go
map read `m[n]`. -/
def assocFind {β : Type} : List (String × β) → String → Option β
  | [], _ => none
  | (k, v) :: rest, n => if k = n then some v else assocFind rest n

/-- Go builtin `delete(m, n)`: the binding of key `n` disappears.  (Keys are
unique in a Go map; removing every binding of `n` is the same operation and
is total on arbitrary association lists.) -/
def assocDelete {β : Type} : List (String × β) → String → List (String × β)
  | [], _ => []
  | (k, v) :: rest, n =>
    if k = n then assocDelete rest n else (k, v) :: assocDelete rest n

/-- Go map assignment `m[n] = v`: any existing binding of `n` is replaced. -/
def assocSet {β : Type} (t : List (String × β)) (n : String) (v : β) : List (String × β) :=
  assocDelete t n ++ [(n, v)]

@[simp] theorem assocFind_nil {β : Type} (n : String) :
    assocFind ([] : List (String × β)) n = none := rfl

@[simp] theorem assocFind_cons {β : Type} (k : String) (v : β) (t : List (String × β))
    (n : String) :
    assocFind ((k, v) :: t) n = if k = n then some v else assocFind t n := rfl

theorem assocFind_assocDelete_self {β : Type} (t : List (String × β)) (n : String) :
    assocFind (assocDelete t n) n = none := by
  induction t with
  | nil => rfl
  | cons p rest ih =>
    obtain ⟨k, v⟩ := p
    by_cases h : k = n <;> simp [assocDelete, h, ih]

theorem assocFind_assocDelete_of_ne {β : Type} (t : List (String × β)) (n m : String)
    (hnm : m ≠ n) :
    assocFind (assocDelete t n) m = assocFind t m := by
  induction t with
  | nil => rfl
  | cons p rest ih =>
    obtain ⟨k, v⟩ := p
    by_cases hk : k = n
    · subst hk
      simp [assocDelete, Ne.symm hnm, ih]
    · by_cases hm : k = m
      · subst hm
        simp [assocDelete, hk]
      · simp [assocDelete, hk, hm, ih]

theorem assocFind_append {β : Type} (s t : List (String × β)) (n : String) :
    assocFind (s ++ t) n = ((assocFind s n).orElse (fun _ => assocFind t n)) := by
  induction s with
  | nil => simp
  | cons p rest ih =>
    obtain ⟨k, v⟩ := p
    by_cases h : k = n <;> simp [h, ih]

theorem assocFind_assocSet_self {β : Type} (t : List (String × β)) (n : String) (v : β) :
    assocFind (assocSet t n v) n = some v := by
  simp [assocSet, assocFind_append, assocFind_assocDelete_self]

theorem assocFind_assocSet_of_ne {β : Type} (t : List (String × β)) (n m : String) (v : β)
    (hnm : m ≠ n) :
    assocFind (assocSet t n v) m = assocFind t m := by
  rw [assocSet, assocFind_append, assocFind_assocDelete_of_ne t n m hnm]
  cases h : assocFind t m <;> simp [Ne.symm hnm]

/-!
## `BaseDynamicEntity` (src/entity.go)

The `components` field is `Option CompTable`: `none` models the Go zero value
(`nil` map).  Every method first materializes an empty map when the field is
`nil` (`if b.components == nil { b.components = map[string]interface{}{} }`),
so every method returns the updated receiver together with its Go results.
Component arguments are passed through `getTypeName`, so the model takes the
component's type name (and, for `SetComponent`, its payload) directly.
-/

structure BaseDynamicEntity where
  components : Option CompTable
  deriving DecidableEq, Repr

namespace BaseDynamicEntity

/-- The table after the `nil`-map guard at the top of every method. -/
def ensured (b : BaseDynamicEntity) : CompTable :=
  b.components.getD []

/-- `SetComponent(c)`: stores `c` under its type name; always returns `nil`. -/
def setComponent (b : BaseDynamicEntity) (n : String) (v : CompVal) :
    BaseDynamicEntity × Option GoErr :=
  (⟨some (assocSet b.ensured n v)⟩, none)

/-- `RemoveComponent(c)`: deletes the entry under `c`'s type name, or fails
with `ErrNotFound` when no such entry exists. -/
def removeComponent (b : BaseDynamicEntity) (n : String) :
    BaseDynamicEntity × Option GoErr :=
  let t := b.ensured
  match assocFind t n with
  | some _ => (⟨some (assocDelete t n)⟩, none)
  | none => (⟨some t⟩, some .notFound)

/-- `GetComponent(out)`: copies the entry stored under `out`'s type name into
`out` (returned here as the middle component), or fails with `ErrNotFound`. -/
def getComponent (b : BaseDynamicEntity) (n : String) :
    BaseDynamicEntity × Option CompVal × Option GoErr :=
  let t := b.ensured
  match assocFind t n with
  | some v => (⟨some t⟩, some v, none)
  | none => (⟨some t⟩, none, some .notFound)

/-- `HasComponent(out)`: `nil` when an entry exists under `out`'s type name,
`ErrNotFound` otherwise. -/
def hasComponent (b : BaseDynamicEntity) (n : String) :
    BaseDynamicEntity × Option GoErr :=
  let t := b.ensured
  match assocFind t n with
  | some _ => (⟨some t⟩, none)
  | none => (⟨some t⟩, some .notFound)

/-- `GetComponents()`: the stored component values (map iteration order is
arbitrary; the model lists them in table order). -/
def getComponents (b : BaseDynamicEntity) :
    BaseDynamicEntity × List CompVal :=
  let t := b.ensured
  (⟨some t⟩, t.map (·.2))

end BaseDynamicEntity

/-- C9: `RemoveComponent` fails with `NotFound` exactly when no entry exists
under the component's type name and otherwise deletes that entry (the entry
under that name disappears, all other names are untouched); consequently,
after `SetComponent` of a value and `RemoveComponent` of a value of the same
type name, `HasComponent` of that name fails with `NotFound`. -/
theorem removeComponent_spec (b : BaseDynamicEntity) (n : String) (v : CompVal) :
    ((b.removeComponent n).2 = some GoErr.notFound ↔ assocFind b.ensured n = none)
    ∧ (∀ m : String,
        assocFind ((b.removeComponent n).1.ensured) m =
          if m = n then none else assocFind b.ensured m)
    ∧ ((((b.setComponent n v).1.removeComponent n).1.hasComponent n).2 =
        some GoErr.notFound) := by
  refine ⟨?_, ?_, ?_⟩
  · simp only [BaseDynamicEntity.removeComponent, BaseDynamicEntity.ensured]
    cases h : assocFind (b.components.getD []) n <;> simp [h]
  · intro m
    simp only [BaseDynamicEntity.removeComponent, BaseDynamicEntity.ensured]
    cases h : assocFind (b.components.getD []) n with
    | none =>
      by_cases hm : m = n <;> simp [hm, h]
    | some w =>
      by_cases hm : m = n
      · subst hm
        simp [assocFind_assocDelete_self]
      · simp [hm, assocFind_assocDelete_of_ne _ _ _ hm]
  · simp only [BaseDynamicEntity.setComponent, BaseDynamicEntity.removeComponent,
      BaseDynamicEntity.hasComponent, BaseDynamicEntity.ensured, Option.getD_some]
    rw [assocFind_assocSet_self]
    simp [assocFind_assocDelete_self]

/-- C10: every dynamic-component-table operation is total on the zero value
(`components = none`, the `nil` map) and behaves exactly as on an empty table:
`SetComponent` stores the entry, `RemoveComponent` / `GetComponent` /
`HasComponent` return `NotFound`, and `GetComponents` returns the empty
sequence; each call coincides with the same call on the explicitly empty
table. -/
theorem zeroValue_table_total (n : String) (v : CompVal) :
    (BaseDynamicEntity.setComponent ⟨none⟩ n v = (⟨some [(n, v)]⟩, none))
    ∧ (BaseDynamicEntity.removeComponent ⟨none⟩ n = (⟨some []⟩, some GoErr.notFound))
    ∧ (BaseDynamicEntity.getComponent ⟨none⟩ n = (⟨some []⟩, none, some GoErr.notFound))
    ∧ (BaseDynamicEntity.hasComponent ⟨none⟩ n = (⟨some []⟩, some GoErr.notFound))
    ∧ (BaseDynamicEntity.getComponents ⟨none⟩ = (⟨some []⟩, []))
    ∧ (BaseDynamicEntity.setComponent ⟨none⟩ n v = BaseDynamicEntity.setComponent ⟨some []⟩ n v)
    ∧ (BaseDynamicEntity.removeComponent ⟨none⟩ n = BaseDynamicEntity.removeComponent ⟨some []⟩ n)
    ∧ (BaseDynamicEntity.getComponent ⟨none⟩ n = BaseDynamicEntity.getComponent ⟨some []⟩ n)
    ∧ (BaseDynamicEntity.hasComponent ⟨none⟩ n = BaseDynamicEntity.hasComponent ⟨some []⟩ n)
    ∧ (BaseDynamicEntity.getComponents ⟨none⟩ = BaseDynamicEntity.getComponents ⟨some []⟩) := by
  refine ⟨rfl, rfl, rfl, rfl, rfl, rfl, rfl, rfl, rfl, rfl⟩

/-!
## The entity store (src/ecs.go, kinshi sorted-slice revision)

An entity is stored behind a pointer; the model keeps the pointee's data in
`MEntity`.  `typeName` is `getTypeName(ent)` (src/reflect.go), `fieldNames`
are the names of the struct-kind fields recorded by `cacheType`,
`staticComps` is the name-indexed view of the entity's component fields used
by `reflect`'s `FieldByName`, and dynamic entities carry the
`BaseDynamicEntity` side table.
-/

/-- `2^64`: modulus of Go's `uint64` arithmetic. -/
def u64 : Nat := 2 ^ 64

structure MEntity where
  entId : Nat
  typeName : String
  fieldNames : List String
  staticComps : List (String × CompVal)
  isDynamic : Bool
  components : Option CompTable
  deriving DecidableEq, Repr

structure ECS where
  idCounter : Nat
  entities : List MEntity
  metaCache : List (String × List String)
  routines : Nat
  deriving DecidableEq, Repr

/-- `New()`. -/
def newECS : ECS := { idCounter := 0, entities := [], metaCache := [], routines := 1 }

/-- Go's `sort.Search` binary-search loop (`i, j := 0, n; for i < j { h :=
(i+j)/2; if !f(h) { i = h+1 } else { j = h } }; return i`), written with
explicit fuel so that it is structural; any fuel of at least `j - i` steps
reaches the loop's exit condition. -/
def searchLoop (f : Nat → Bool) : Nat → Nat → Nat → Nat
  | 0, i, _ => i
  | fuel + 1, i, j =>
    if i < j then
      let h := (i + j) / 2
      if f h then searchLoop f fuel i h else searchLoop f fuel (h + 1) j
    else i

/-- `sort.Search(n, f)`. -/
def sortSearch (n : Nat) (f : Nat → Bool) : Nat :=
  searchLoop f (n + 1) 0 n

/-- The id `ecs.entities[i].ent.ID()` read by `findEntity`'s predicate
(indices stay below the length, so the default is never consulted). -/
def idAt (xs : List MEntity) (i : Nat) : Nat :=
  ((xs.get? i).map (·.entId)).getD 0

/-- `findEntity(id)`: binary search for the first index whose entity id is
`>= id`; returns the entry and its index unless the search fell off the end.
Note the found entry's id is never compared against `id` itself. -/
def findEntity (xs : List MEntity) (id : Nat) : Option (MEntity × Nat) :=
  let l := xs.length
  let found := sortSearch l (fun i => decide (id ≤ idAt xs i))
  if found = l then none
  else (xs.get? found).map (fun e => (e, found))

/-- `nextId()`: increments the `uint64` counter and returns it. -/
def nextId (ecs : ECS) : ECS × Nat :=
  let c := (ecs.idCounter + 1) % u64
  ({ ecs with idCounter := c }, c)

/-- `cacheType(ent)`: memoize the struct-kind field names of the entity's
type on first sight. -/
def cacheType (cache : List (String × List String)) (e : MEntity) :
    List (String × List String) :=
  match assocFind cache e.typeName with
  | some _ => cache
  | none => cache ++ [(e.typeName, e.fieldNames)]

/-- Result of `AddEntity`: the updated store, the caller's entity handle
(whose id `AddEntity` may have set), the returned `EntityID` and error. -/
structure AddResult where
  state : ECS
  handle : MEntity
  retId : Nat
  err : Option GoErr
  deriving DecidableEq, Repr

/-- `AddEntity(ent)` for a pointer entity (the non-pointer rejection branch
is outside the model): assign the next id when the handle's id is unset,
cache the type, report `ErrAlreadyExists` when `findEntity` locates the id,
otherwise append the entry. -/
def addEntity (ecs : ECS) (e : MEntity) : AddResult :=
  let s1 :=
    if e.entId = 0 then
      let r := nextId ecs
      (r.1, { e with entId := r.2 })
    else (ecs, e)
  let ecs1 := { s1.1 with metaCache := cacheType s1.1.metaCache s1.2 }
  match findEntity ecs1.entities s1.2.entId with
  | some _ => ⟨ecs1, s1.2, s1.2.entId, some .alreadyExists⟩
  | none =>
    ⟨{ ecs1 with entities := ecs1.entities ++ [s1.2] }, s1.2, s1.2.entId, none⟩

/-- Result of `RemoveEntity`: updated store, the caller's handle and error. -/
structure RemoveResult where
  state : ECS
  handle : MEntity
  err : Option GoErr
  deriving DecidableEq, Repr

/-- `RemoveEntity(ent)`: `ErrNoID` on an unset id; otherwise whatever entry
`findEntity` designates is spliced out of the slice and the handle's id is
reset to `EntityNone`; `ErrNotFound` when the search fell off the end. -/
def removeEntity (ecs : ECS) (e : MEntity) : RemoveResult :=
  if e.entId = 0 then ⟨ecs, e, some .noId⟩
  else
    match findEntity ecs.entities e.entId with
    | some (_, idx) =>
      ⟨{ ecs with entities := ecs.entities.eraseIdx idx }, { e with entId := 0 }, none⟩
    | none => ⟨ecs, e, some .notFound⟩

/-- `Get(id)`: the wrapped entity when `findEntity` succeeds, else
`(nil, ErrNotFound)`, as the Go pair `(*EntityWrap, error)`. -/
def getEntity (ecs : ECS) (id : Nat) : Option MEntity × Option GoErr :=
  match findEntity ecs.entities id with
  | some (e, _) => (some e, none)
  | none => (none, some .notFound)

/-- A fresh static entity handle used in the concrete scenarios. -/
def mkUnit (nameVal : CompVal) : MEntity :=
  { entId := 0, typeName := "Unit", fieldNames := ["BaseEntity", "Name"],
    staticComps := [("Name", nameVal)], isDynamic := false, components := none }

/-- The store reached from `New()` by adding three fresh `Unit` entities
(ids 1, 2, 3) and removing the one with id 2: the live ids are `[1, 3]`. -/
def demoStore : ECS :=
  let r1 := addEntity newECS (mkUnit 10)
  let r2 := addEntity r1.state (mkUnit 20)
  let r3 := addEntity r2.state (mkUnit 30)
  (removeEntity r3.state r2.handle).state

/-- The live ids of `demoStore` are indeed `[1, 3]`. -/
theorem demoStore_ids : demoStore.entities.map (·.entId) = [1, 3] := by decide

/-- C1 (code bug): on the store with live ids `[1, 3]`, `Get(2)` does not
fail with `NotFound` — `findEntity` never compares the entity found by
`sort.Search` against the requested id, so `Get(2)` returns the live entity
with id `3`. -/
theorem get_between_live_ids_returns_wrong_entity :
    ((getEntity demoStore 2).2 ≠ some GoErr.notFound)
    ∧ ((getEntity demoStore 2).1.map (·.entId) = some 3) := by
  constructor
  · decide
  · decide

/-- C4 (code bug): on the store with live ids `[1, 3]`, `RemoveEntity` on a
handle with the stale nonzero id `2` does not fail with `NotFound` and does
not leave the collection unchanged — it reports success, removes the live
entity with id `3`, and resets the handle's id. -/
theorem remove_stale_id_removes_wrong_entity :
    ((removeEntity demoStore { mkUnit 20 with entId := 2 }).err ≠ some GoErr.notFound)
    ∧ ((removeEntity demoStore { mkUnit 20 with entId := 2 }).err = none)
    ∧ ((removeEntity demoStore { mkUnit 20 with entId := 2 }).state.entities.map (·.entId)
        = [1])
    ∧ ((removeEntity demoStore { mkUnit 20 with entId := 2 }).handle.entId = 0) := by
  refine ⟨by decide, by decide, by decide, by decide⟩

/-!
## Identifier sequences returned by `AddEntity` (C3)
-/

/-- The identifiers returned by a sequence of `AddEntity` calls, each on its
own entity handle, threading the store state. -/
def addIds (ecs : ECS) : List MEntity → List Nat
  | [] => []
  | e :: es =>
    let r := addEntity ecs e
    r.retId :: addIds r.state es

theorem addEntity_fresh_retId (ecs : ECS) (e : MEntity) (he : e.entId = 0) :
    (addEntity ecs e).retId = (ecs.idCounter + 1) % u64
    ∧ (addEntity ecs e).state.idCounter = (ecs.idCounter + 1) % u64 := by
  unfold addEntity nextId
  simp only [he, if_pos]
  split <;> simp

/-- Closed form of the returned identifier sequence: starting from a counter
below `2^64`, the `k`-th `AddEntity` call on a fresh handle returns
`(counter + k + 1) % 2^64`. -/
theorem addIds_formula : ∀ (es : List MEntity) (ecs : ECS), ecs.idCounter < u64 →
    (∀ e ∈ es, e.entId = 0) →
    addIds ecs es = (List.range es.length).map (fun k => (ecs.idCounter + k + 1) % u64)
  | [], ecs, _, _ => by simp [addIds]
  | e :: es, ecs, hlt, hfresh => by
    have he : e.entId = 0 := hfresh e (by simp)
    have hret := addEntity_fresh_retId ecs e he
    have hpos : 0 < u64 := by decide
    have hcounter : (addEntity ecs e).state.idCounter < u64 := by
      rw [hret.2]; exact Nat.mod_lt _ hpos
    have ih := addIds_formula es (addEntity ecs e).state hcounter
      (fun x hx => hfresh x (by simp [hx]))
    show (addEntity ecs e).retId :: addIds (addEntity ecs e).state es = _
    rw [ih, hret.1, hret.2, List.length_cons, List.range_succ_eq_map,
      List.map_cons, List.map_map]
    refine congrArg₂ _ (by simp) (List.map_congr_left ?_)
    intro k _
    show (((ecs.idCounter + 1) % u64) + k + 1) % u64 = (ecs.idCounter + (k + 1) + 1) % u64
    rw [Nat.add_assoc _ k 1, Nat.mod_add_mod]
    congr 1
    omega

/-- C3 amended: for every starting store and every sequence of `AddEntity`
calls on pointer entities whose identity is unset at the time of the call,
as long as the total number of allocations keeps the `uint64` counter from
wrapping (`counter + number of calls < 2^64`), the returned identifiers are
pairwise distinct, nonzero, and strictly increasing in call order. -/
theorem addIds_increasing (ecs : ECS) (es : List MEntity)
    (hfresh : ∀ e ∈ es, e.entId = 0)
    (hbound : ecs.idCounter + es.length < u64) :
    (addIds ecs es).Pairwise (· < ·)
    ∧ (∀ i ∈ addIds ecs es, i ≠ 0)
    ∧ (addIds ecs es).Nodup := by
  have hc : ecs.idCounter < u64 := by omega
  have hform := addIds_formula es ecs hc hfresh
  have hnomod : addIds ecs es = (List.range es.length).map
      (fun k => ecs.idCounter + k + 1) := by
    rw [hform]
    refine List.map_congr_left ?_
    intro k hk
    have hk' : k < es.length := List.mem_range.1 hk
    exact Nat.mod_eq_of_lt (by omega)
  have hpair : (addIds ecs es).Pairwise (· < ·) := by
    rw [hnomod]
    refine List.pairwise_map.2 ?_
    exact (List.pairwise_lt_range _).imp (fun h => by omega)
  refine ⟨hpair, ?_, hpair.imp (fun h => Nat.ne_of_lt h)⟩
  intro i hi
  rw [hnomod] at hi
  obtain ⟨k, _, hk⟩ := List.mem_map.1 hi
  omega

/-- Witness for `addIds_increasing`: three fresh adds to a new store yield
ids that are strictly increasing, nonzero and distinct (they are `[1,2,3]`). -/
theorem addIds_increasing_witness :
    (∀ e ∈ [mkUnit 10, mkUnit 20, mkUnit 30], e.entId = 0)
    ∧ newECS.idCounter + ([mkUnit 10, mkUnit 20, mkUnit 30] : List MEntity).length < u64
    ∧ ((addIds newECS [mkUnit 10, mkUnit 20, mkUnit 30]).Pairwise (· < ·)
       ∧ (∀ i ∈ addIds newECS [mkUnit 10, mkUnit 20, mkUnit 30], i ≠ 0)
       ∧ (addIds newECS [mkUnit 10, mkUnit 20, mkUnit 30]).Nodup) :=
  ⟨by decide, by decide,
    addIds_increasing newECS [mkUnit 10, mkUnit 20, mkUnit 30] (by decide) (by decide)⟩

/-- C3 counterexample: the claim as stated — with no bound on the number of
calls — is false: after `2^64` fresh `AddEntity` calls on a new store the
`uint64` counter wraps and the final call returns identifier `0`. -/
theorem addIds_wraparound :
    ¬ ∀ es : List MEntity, (∀ e ∈ es, e.entId = 0) →
        ((addIds newECS es).Pairwise (· < ·) ∧ ∀ i ∈ addIds newECS es, i ≠ 0) := by
  intro hall
  have hfresh : ∀ e ∈ List.replicate u64 (mkUnit 0), e.entId = 0 := by
    intro e he
    rw [List.eq_of_mem_replicate he]
    rfl
  have hpos : 0 < u64 := by decide
  have hmem : (0 : Nat) ∈ addIds newECS (List.replicate u64 (mkUnit 0)) := by
    rw [addIds_formula _ _ hpos hfresh, List.length_replicate]
    refine List.mem_map.2 ⟨u64 - 1, List.mem_range.2 (by omega), ?_⟩
    show (newECS.idCounter + (u64 - 1) + 1) % u64 = 0
    have h1 : newECS.idCounter + (u64 - 1) + 1 = u64 := by
      show 0 + (u64 - 1) + 1 = u64
      omega
    rw [h1, Nat.mod_self]
  exact (hall _ hfresh).2 0 hmem rfl

/-!
## The query engine: `Iterate` and `IterateSpecific` (src/ecs.go)

`Iterate` partitions the entity slice into `routines` contiguous ranges of
`step = len/routines + 1` indices; worker `w` scans indices
`[step*w, step*w + step) ∩ [0, len)` and the local buffers are concatenated.
The model concatenates them in worker order (one admissible schedule; the
claims are about the result as a set).  A worker's scan of its range is the
filter of the corresponding `drop/take` slice of the entity list.
-/

/-- The per-type check inside `Iterate`'s inner loop: the cached descriptor
of the entry's type name lists a field named after the requested type, or
the entity is dynamic and `HasComponent` succeeds. -/
def entityMatches (cache : List (String × List String)) (types : List String)
    (e : MEntity) : Bool :=
  types.all (fun tn =>
    (match assocFind cache e.typeName with
     | some fields => decide (tn ∈ fields)
     | none => false)
    || (e.isDynamic && (assocFind (e.components.getD []) tn).isSome))

/-- `Iterate(types...)`: fan out over `routines` contiguous chunks, filter
each, concatenate. -/
def iterate (ecs : ECS) (types : List String) : List MEntity :=
  let l := ecs.entities.length
  let step := l / ecs.routines + 1
  ((List.range ecs.routines).map (fun w =>
    ((ecs.entities.drop (step * w)).take step).filter
      (entityMatches ecs.metaCache types))).flatten

/-- `IterateSpecific(t)`: same fan-out, matching on equality of the stored
type name with `getTypeName(t)`. -/
def iterateSpecific (ecs : ECS) (searchName : String) : List MEntity :=
  let l := ecs.entities.length
  let step := l / ecs.routines + 1
  ((List.range ecs.routines).map (fun w =>
    ((ecs.entities.drop (step * w)).take step).filter
      (fun e => decide (e.typeName = searchName)))).flatten

theorem join_chunks_take {α : Type} (xs : List α) (s : Nat) :
    ∀ n : Nat, ((List.range n).map (fun w => (xs.drop (s * w)).take s)).flatten
      = xs.take (n * s)
  | 0 => by simp
  | n + 1 => by
    rw [List.range_succ, List.map_append, List.flatten_append,
      join_chunks_take xs s n]
    simp only [List.map_cons, List.map_nil, List.flatten_cons, List.flatten_nil,
      List.append_nil]
    rw [Nat.succ_mul, List.take_add, Nat.mul_comm s n]

theorem join_chunks {α : Type} (xs : List α) (s n : Nat)
    (hlen : xs.length ≤ n * s) :
    ((List.range n).map (fun w => (xs.drop (s * w)).take s)).flatten = xs := by
  rw [join_chunks_take xs s n]
  exact List.take_of_length_le hlen

theorem filter_flatten {α : Type} (p : α → Bool) :
    ∀ L : List (List α), (L.map (fun l => l.filter p)).flatten = L.flatten.filter p
  | [] => rfl
  | l :: L => by
    rw [List.map_cons, List.flatten_cons, List.flatten_cons, List.filter_append,
      filter_flatten p L]

/-- Splitting a list into `n ≥ 1` chunks of `len/n + 1` elements, filtering
each chunk, and concatenating yields exactly the sequential filter. -/
theorem chunked_filter {α : Type} (xs : List α) (p : α → Bool) (n : Nat)
    (hn : 1 ≤ n) :
    ((List.range n).map (fun w =>
      ((xs.drop ((xs.length / n + 1) * w)).take (xs.length / n + 1)).filter p)).flatten
      = xs.filter p := by
  have hmod := Nat.div_add_mod xs.length n
  have hlt : xs.length % n < n := Nat.mod_lt _ (by omega)
  have hmul : n * (xs.length / n + 1) = n * (xs.length / n) + n := by ring
  have hlen : xs.length ≤ n * (xs.length / n + 1) := by omega
  calc ((List.range n).map (fun w =>
          ((xs.drop ((xs.length / n + 1) * w)).take (xs.length / n + 1)).filter p)).flatten
      = (((List.range n).map (fun w =>
          (xs.drop ((xs.length / n + 1) * w)).take (xs.length / n + 1))).map
            (fun l => l.filter p)).flatten := by
          rw [List.map_map]
          rfl
    _ = (((List.range n).map (fun w =>
          (xs.drop ((xs.length / n + 1) * w)).take (xs.length / n + 1))).flatten).filter p :=
          filter_flatten p _
    _ = xs.filter p := by rw [join_chunks xs _ n hlen]

/-- The match predicate, spelled out as a proposition. -/
theorem entityMatches_iff (cache : List (String × List String)) (types : List String)
    (e : MEntity) :
    entityMatches cache types e = true ↔
      ∀ tn ∈ types,
        (∃ fields, assocFind cache e.typeName = some fields ∧ tn ∈ fields)
        ∨ (e.isDynamic = true
          ∧ (assocFind (e.components.getD []) tn).isSome = true) := by
  unfold entityMatches
  rw [List.all_eq_true]
  refine forall_congr' (fun tn => ?_)
  refine imp_congr_right (fun _ => ?_)
  cases hcache : assocFind cache e.typeName with
  | none => simp [hcache]
  | some fields => simp [hcache]

/-- C2: for any store state, any requested component-type list (including
the empty one) and any routine count of at least one, `Iterate` returns
exactly the live entities that satisfy the match predicate — the cached
descriptor of the entity's type lists a field named after each requested
type, or the entity is dynamic and its component table has the type — in
snapshot order, hence with no duplicates and no omissions relative to a
sequential scan. -/
theorem iterate_exact (ecs : ECS) (types : List String)
    (hr : 1 ≤ ecs.routines) :
    iterate ecs types = ecs.entities.filter (entityMatches ecs.metaCache types)
    ∧ (∀ e : MEntity, e ∈ iterate ecs types ↔
        e ∈ ecs.entities ∧ ∀ tn ∈ types,
          (∃ fields, assocFind ecs.metaCache e.typeName = some fields
            ∧ tn ∈ fields)
          ∨ (e.isDynamic = true
            ∧ (assocFind (e.components.getD []) tn).isSome = true)) := by
  have hfil := chunked_filter ecs.entities (entityMatches ecs.metaCache types)
    ecs.routines hr
  refine ⟨hfil, ?_⟩
  intro e
  rw [iterate]
  rw [hfil, List.mem_filter]
  exact and_congr_right (fun _ => entityMatches_iff ecs.metaCache types e)

/-- C8: for any store state, any searched type name and any routine count of
at least one, `IterateSpecific` returns exactly the live entities whose
stored concrete type name equals the sample's type name, in snapshot order;
in particular every returned entity has exactly that type name, so an entity
of a different type is excluded even if its component set coincides. -/
theorem iterateSpecific_exact (ecs : ECS) (searchName : String)
    (hr : 1 ≤ ecs.routines) :
    iterateSpecific ecs searchName
      = ecs.entities.filter (fun e => decide (e.typeName = searchName))
    ∧ (∀ e : MEntity, e ∈ iterateSpecific ecs searchName ↔
        e ∈ ecs.entities ∧ e.typeName = searchName) := by
  have hfil := chunked_filter ecs.entities
    (fun e : MEntity => decide (e.typeName = searchName)) ecs.routines hr
  refine ⟨hfil, ?_⟩
  intro e
  rw [iterateSpecific]
  rw [hfil, List.mem_filter]
  simp

/-!
## `EntityWrap.View` — kinshi revision (src/ecs.go lines 159-202)

The callback `fn` is a function value; `fnType.NumIn()` parameter types give
the requested component type names (`names` below), and the callback's
behavior is abstracted as a function from the received component values to
the optional error it returns.  `reflect.Value.Call` panics — without
invoking `fn` — when the number of collected `callInstances` differs from
the callback's arity or when an argument is the zero `reflect.Value`; the
model returns `ViewOutcome.crashed` for that.  Note the source appends the
shadowed outer `ptr` after a successful dynamic lookup, so a dynamic
fall-through contributes two entries (`some v` and the invalid zero value
`none`) to `callInstances`.
-/

/-- Modelled from the spec: `fetchPtrOfType` is called by `View` but is not
present under src/ (only its callers are).  Per §4.4, component resolution
"first checks the entity's static structural fields by name" and fails with
`NotFound` on a miss; `findType` in src/reflect.go performs the same
name-based field lookup and returns `ErrNotFound` when the field is absent. -/
def fetchPtrOfType (e : MEntity) (n : String) : Except GoErr CompVal :=
  match assocFind e.staticComps n with
  | some v => .ok v
  | none => .error .notFound

/-- `DynamicEntity.GetComponent(name)` of the kinshi revision: fetch the
dynamic table entry by name, `ErrNotFound` on a miss. -/
def dynGetByName (e : MEntity) (n : String) : Except GoErr CompVal :=
  match assocFind (e.components.getD []) n with
  | some v => .ok v
  | none => .error .notFound

/-- The `callInstances` loop of `View`: static fetch first; on error, the
dynamic lookup if the entity is dynamic (its success appends the value and
then the stale outer `ptr`, modelled as `none`), otherwise the error is
returned. -/
def buildArgs (e : MEntity) : List String → Except GoErr (List (Option CompVal))
  | [] => .ok []
  | n :: ns =>
    match fetchPtrOfType e n with
    | .ok v => (fun r => some v :: r) <$> buildArgs e ns
    | .error err =>
      if e.isDynamic then
        match dynGetByName e n with
        | .ok v => (fun r => some v :: none :: r) <$> buildArgs e ns
        | .error err2 => .error err2
      else .error err

/-- Outcome of a `View` call: a returned Go error (with a flag telling
whether the callback was invoked), or a runtime panic inside
`reflect.Value.Call`. -/
inductive ViewOutcome where
  | ret (err : Option GoErr) (callbackRan : Bool)
  | crashed
  deriving DecidableEq, Repr

/-- `EntityWrap.View(fn)` of the kinshi revision: build the call instances,
then `reflect.Value.Call` (which panics on an arity mismatch or a zero
`reflect.Value` argument), then propagate the callback's error result. -/
def view (e : MEntity) (names : List String) (fn : List CompVal → Option GoErr) :
    ViewOutcome :=
  match buildArgs e names with
  | .error err => .ret (some err) false
  | .ok args =>
    if args.length = names.length ∧ args.all (·.isSome) then
      .ret (fn args.reduceOption) true
    else .crashed

/-- A requested component type resolves on an entity: a static structural
field of that name exists, or the entity is dynamic and its component table
has the name. -/
def Resolvable (e : MEntity) (n : String) : Prop :=
  (assocFind e.staticComps n).isSome = true
  ∨ (e.isDynamic = true ∧ (assocFind (e.components.getD []) n).isSome = true)

instance (e : MEntity) (n : String) : Decidable (Resolvable e n) := by
  unfold Resolvable
  infer_instance

theorem buildArgs_ok_of_resolvable (e : MEntity) :
    ∀ names : List String, (∀ n ∈ names, Resolvable e n) →
      ∃ args, buildArgs e names = .ok args
  | [], _ => ⟨[], rfl⟩
  | n :: ns, h => by
    obtain ⟨args, hargs⟩ := buildArgs_ok_of_resolvable e ns
      (fun x hx => h x (List.mem_cons_of_mem _ hx))
    rcases h n (List.mem_cons_self n ns) with hstat | ⟨hdyn, hhas⟩
    · unfold buildArgs fetchPtrOfType
      cases hfind : assocFind e.staticComps n with
      | none => rw [hfind] at hstat; exact absurd hstat (by simp)
      | some v => exact ⟨some v :: args, by rw [hargs]; rfl⟩
    · unfold buildArgs fetchPtrOfType dynGetByName
      cases hfind : assocFind e.staticComps n with
      | some v => exact ⟨some v :: args, by rw [hargs]; rfl⟩
      | none =>
        cases hdf : assocFind (e.components.getD []) n with
        | none => rw [hdf] at hhas; exact absurd hhas (by simp)
        | some v => exact ⟨some v :: none :: args, by rw [hdyn, hargs]; rfl⟩

theorem buildArgs_err_of_unresolvable (e : MEntity) :
    ∀ names : List String, ¬ (∀ n ∈ names, Resolvable e n) →
      buildArgs e names = .error .notFound
  | [], h => absurd (by simp) h
  | n :: ns, h => by
    unfold buildArgs fetchPtrOfType dynGetByName
    by_cases hres : Resolvable e n
    · have hns : ¬ ∀ x ∈ ns, Resolvable e x := by
        intro hall
        exact h (by
          intro x hx
          rcases List.mem_cons.1 hx with hx | hx
          · exact hx ▸ hres
          · exact hall x hx)
      have ih := buildArgs_err_of_unresolvable e ns hns
      rcases hres with hstat | ⟨hdyn, hhas⟩
      · cases hfind : assocFind e.staticComps n with
        | none => rw [hfind] at hstat; exact absurd hstat (by simp)
        | some v => rw [ih]; rfl
      · cases hfind : assocFind e.staticComps n with
        | some v => rw [ih]; rfl
        | none =>
          cases hdf : assocFind (e.components.getD []) n with
          | none => rw [hdf] at hhas; exact absurd hhas (by simp)
          | some v => rw [hdyn, ih]; rfl
    · cases hfind : assocFind e.staticComps n with
      | some v =>
        exact absurd (Or.inl (by rw [hfind]; rfl)) hres
      | none =>
        cases hdyn : e.isDynamic with
        | false => rfl
        | true =>
          cases hdf : assocFind (e.components.getD []) n with
          | none => rfl
          | some v =>
            exact absurd (Or.inr ⟨hdyn, by rw [hdf]; rfl⟩) hres

theorem buildArgs_all_static (e : MEntity) :
    ∀ names : List String, (∀ n ∈ names, (assocFind e.staticComps n).isSome = true) →
      buildArgs e names = .ok (names.map (fun n => assocFind e.staticComps n))
  | [], _ => rfl
  | n :: ns, h => by
    have ih := buildArgs_all_static e ns (fun x hx => h x (List.mem_cons_of_mem _ hx))
    have hn := h n (List.mem_cons_self n ns)
    unfold buildArgs fetchPtrOfType
    cases hfind : assocFind e.staticComps n with
    | none => rw [hfind] at hn; exact absurd hn (by simp)
    | some v => rw [ih]; simp [hfind]

theorem view_of_buildArgs_err (e : MEntity) (names : List String)
    (fn : List CompVal → Option GoErr) (err : GoErr)
    (h : buildArgs e names = .error err) :
    view e names fn = .ret (some err) false := by
  unfold view
  rw [h]

theorem view_of_buildArgs_ok (e : MEntity) (names : List String)
    (fn : List CompVal → Option GoErr) (args : List (Option CompVal))
    (h : buildArgs e names = .ok args) :
    view e names fn =
      if args.length = names.length ∧ args.all (·.isSome) then
        .ret (fn args.reduceOption) true
      else .crashed := by
  unfold view
  rw [h]

/-- C5: `View` (kinshi revision) resolves each requested component type
statically first and falls through to the dynamic table only on a static
miss of a dynamic entity: it returns `NotFound` without ever invoking the
callback exactly when some requested type resolves neither way, and when
every requested type resolves statically the callback is invoked with the
static component values and the error it returns (if any) is returned by
`View` itself. -/
theorem view_resolution (e : MEntity) (names : List String)
    (fn : List CompVal → Option GoErr) :
    (view e names fn = .ret (some GoErr.notFound) false
      ↔ ¬ ∀ n ∈ names, Resolvable e n)
    ∧ ((∀ n ∈ names, (assocFind e.staticComps n).isSome = true) →
        view e names fn
          = .ret (fn (names.filterMap (fun n => assocFind e.staticComps n))) true) := by
  constructor
  · constructor
    · intro hv hall
      obtain ⟨args, hargs⟩ := buildArgs_ok_of_resolvable e names hall
      rw [view_of_buildArgs_ok e names fn args hargs] at hv
      by_cases hc : args.length = names.length ∧ args.all (·.isSome)
      · rw [if_pos hc] at hv
        exact absurd (ViewOutcome.ret.inj hv).2 (by simp)
      · rw [if_neg hc] at hv
        exact ViewOutcome.noConfusion hv
    · intro hnot
      exact view_of_buildArgs_err e names fn GoErr.notFound
        (buildArgs_err_of_unresolvable e names hnot)
  · intro hstat
    have hb := buildArgs_all_static e names hstat
    rw [view_of_buildArgs_ok e names fn _ hb]
    have hlen : (names.map (fun n => assocFind e.staticComps n)).length
        = names.length := List.length_map _ _
    have hall : (names.map (fun n => assocFind e.staticComps n)).all (·.isSome)
        = true := by
      rw [List.all_eq_true]
      intro x hx
      obtain ⟨n, hn, hxn⟩ := List.mem_map.1 hx
      rw [← hxn]
      exact hstat n hn
    have hred : ∀ l : List String,
        (l.map (fun n => assocFind e.staticComps n)).reduceOption
          = l.filterMap (fun n => assocFind e.staticComps n) := by
      intro l
      induction l with
      | nil => rfl
      | cons a l ih => cases h : assocFind e.staticComps a <;> simp [h, ih]
    rw [if_pos ⟨hlen, hall⟩, hred]

/-- Witness for `view_resolution`: on a static `Unit` entity, viewing its
`Name` component runs the callback on the stored value and propagates the
callback's error. -/
theorem view_resolution_witness :
    (∀ n ∈ ["Name"], (assocFind (mkUnit 10).staticComps n).isSome = true)
    ∧ view (mkUnit 10) ["Name"] (fun _ => some (GoErr.other "boom"))
      = .ret (some (GoErr.other "boom")) true :=
  ⟨by decide,
    (view_resolution (mkUnit 10) ["Name"] (fun _ => some (GoErr.other "boom"))).2
      (by decide)⟩

/-!
## `EntityWrap.View` — copy-in/copy-out revision (src/ecs.go lines 464-505)

In this revision each callback parameter is materialized with
`reflect.New`, `findType` copies the entity's static field of that name into
the fresh pointer (falling through to `HasComponent`/`GetComponent` of a
dynamic entity), the callback runs on the copies — its behavior is
abstracted as a function from the received values to the (possibly mutated)
values plus an optional error — and only when the callback returned no error
are the copies written back via `setType` (falling through to
`HasComponent`/`SetComponent`).  A write-back miss returns mid-loop, keeping
the already-written fields, which the model threads faithfully.
-/

/-- The resolution loop: for each parameter type name, `findType` (static
field copy by name), else the dynamic table of a dynamic entity, else the
`ErrNotFound` from `findType` is returned. -/
def resolveCopy (e : MEntity) : List String → Except GoErr (List CompVal)
  | [] => .ok []
  | n :: ns =>
    match assocFind e.staticComps n with
    | some v => (fun r => v :: r) <$> resolveCopy e ns
    | none =>
      if e.isDynamic then
        match assocFind (e.components.getD []) n with
        | some v => (fun r => v :: r) <$> resolveCopy e ns
        | none => .error .notFound
      else .error .notFound

/-- The write-back loop: `setType` stores into an existing static field of
the name; otherwise, for a dynamic entity that `HasComponent` the name,
`SetComponent` stores it; otherwise the `ErrNotFound` from `setType` is
returned immediately (fields already written stay written). -/
def writeBackCopy (e : MEntity) : List (String × CompVal) → MEntity × Option GoErr
  | [] => (e, none)
  | (n, v) :: rest =>
    match assocFind e.staticComps n with
    | some _ => writeBackCopy { e with staticComps := assocSet e.staticComps n v } rest
    | none =>
      if e.isDynamic && (assocFind (e.components.getD []) n).isSome then
        writeBackCopy
          { e with components := some (assocSet (e.components.getD []) n v) } rest
      else (e, some .notFound)

/-- `EntityWrap.View(fn)` of the copy-in/copy-out revision: resolve copies,
run the callback, propagate its error before any write-back, else write the
copies back.  Returns the Go error and the entity after the call. -/
def viewCopy (e : MEntity) (names : List String)
    (fn : List CompVal → List CompVal × Option GoErr) : Option GoErr × MEntity :=
  match resolveCopy e names with
  | .error err => (some err, e)
  | .ok vals =>
    match fn vals with
    | (_, some err) => (some err, e)
    | (outs, none) =>
      let r := writeBackCopy e (names.zip outs)
      (r.2, r.1)

/-- Every component value observable on an entity by name, through the same
static-then-dynamic resolution a lookup uses. -/
def componentValue (e : MEntity) (n : String) : Option CompVal :=
  match assocFind e.staticComps n with
  | some v => some v
  | none => if e.isDynamic then assocFind (e.components.getD []) n else none

theorem viewCopy_of_resolve_ok (e : MEntity) (names : List String)
    (fn : List CompVal → List CompVal × Option GoErr) (vals : List CompVal)
    (h : resolveCopy e names = .ok vals) :
    viewCopy e names fn =
      match fn vals with
      | (_, some err) => (some err, e)
      | (outs, none) =>
        ((writeBackCopy e (names.zip outs)).2, (writeBackCopy e (names.zip outs)).1) := by
  unfold viewCopy
  rw [h]

/-- C6: in the copy-in/copy-out view, if the callback returns a non-nil
error then no write-back is performed: `View` propagates exactly that error,
the entity is unchanged, and a lookup of any component after the call
observes exactly the value it held before. -/
theorem viewCopy_error_no_writeback (e : MEntity) (names : List String)
    (fn : List CompVal → List CompVal × Option GoErr) (vals : List CompVal)
    (err : GoErr)
    (hres : resolveCopy e names = .ok vals)
    (hfn : (fn vals).2 = some err) :
    viewCopy e names fn = (some err, e)
    ∧ (∀ n : String,
        componentValue (viewCopy e names fn).2 n = componentValue e n) := by
  have hv : viewCopy e names fn = (some err, e) := by
    rw [viewCopy_of_resolve_ok e names fn vals hres]
    rcases hfv : fn vals with ⟨outs, ferr⟩
    rw [hfv] at hfn
    cases ferr with
    | none => exact absurd hfn (by simp)
    | some e2 =>
      have he2 : e2 = err := by simpa using hfn
      rw [he2]
  exact ⟨hv, fun n => by rw [hv]⟩

/-- Witness for `viewCopy_error_no_writeback`: a callback that increments
the copied `Name` component but reports an error leaves the entity with its
original component value. -/
theorem viewCopy_error_no_writeback_witness :
    resolveCopy (mkUnit 10) ["Name"] = .ok [10]
    ∧ ((fun vs : List CompVal => (vs.map (· + 1), some (GoErr.other "boom"))) [10]).2
        = some (GoErr.other "boom")
    ∧ (viewCopy (mkUnit 10) ["Name"]
        (fun vs => (vs.map (· + 1), some (GoErr.other "boom")))
        = (some (GoErr.other "boom"), mkUnit 10)
      ∧ ∀ n : String,
          componentValue (viewCopy (mkUnit 10) ["Name"]
            (fun vs => (vs.map (· + 1), some (GoErr.other "boom")))).2 n
            = componentValue (mkUnit 10) n) :=
  ⟨rfl, rfl,
    viewCopy_error_no_writeback (mkUnit 10) ["Name"]
      (fun vs => (vs.map (· + 1), some (GoErr.other "boom"))) [10]
      (GoErr.other "boom") rfl rfl⟩

/-!
## Snapshot import: `Unmarshal` (src/unnamed/part_000 lines 381-439)

A decoded snapshot is a list of `serializedEntity` values (id, type name,
component-name-to-value map).  The serialization revision's store also keeps
`compMetaCache` (registered component types, by name) and knows whether a
cached entity type is dynamic (whether `reflect.New` of it implements
`DynamicEntity`).  JSON/mapstructure decoding of the abstract payloads is
the identity; the `// TODO: Error handling` decode-failure branches skip an
entry exactly as a decode success followed by no store would, and are not
modelled.  After the loop the id counter is set from the LAST appended
entity: `ecs.idCounter = uint64(ecs.entities[len(ecs.entities)-1].Ent.ID()) + 1`.
-/

structure SerEntity where
  sid : Nat
  stype : String
  scomps : List (String × CompVal)
  deriving DecidableEq, Repr

/-- Cached metadata of one entity type in the serialization revision:
struct-kind field names plus whether the type implements `DynamicEntity`. -/
structure TypeMeta where
  fields : List String
  isDyn : Bool
  deriving DecidableEq, Repr

structure ECS7 where
  idCounter : Nat
  entities : List MEntity
  metaCache : List (String × TypeMeta)
  compMetaCache : List String
  routines : Nat
  deriving DecidableEq, Repr

/-- `nextId()` of the serialization revision. -/
def nextId7 (ecs : ECS7) : ECS7 × Nat :=
  let c := (ecs.idCounter + 1) % u64
  ({ ecs with idCounter := c }, c)

/-- Reconstruction of one serialized entity whose type is cached: a fresh
`reflect.New` instance, each serialized component decoded into the struct
field of its name when one exists, else — for a dynamic entity — stored via
`SetComponent` when the component type is registered, else skipped; finally
`SetID(ses[i].ID)`. -/
def reconstructEntity (ecs : ECS7) (meta : TypeMeta) (se : SerEntity) : MEntity :=
  let init : MEntity :=
    { entId := 0, typeName := se.stype, fieldNames := meta.fields,
      staticComps := [], isDynamic := meta.isDyn, components := none }
  let e := se.scomps.foldl (fun e cv =>
    if meta.fields.contains cv.1 then
      { e with staticComps := assocSet e.staticComps cv.1 cv.2 }
    else if meta.isDyn && ecs.compMetaCache.contains cv.1 then
      { e with components := some (assocSet (e.components.getD []) cv.1 cv.2) }
    else e) init
  { e with entId := se.sid }

/-- `Unmarshal`: wipe the collection, reconstruct every entry whose type
name is in the descriptor cache (others are dropped), then position the id
counter one past the identifier of the LAST reconstructed entity (`0` when
nothing was reconstructed). -/
def unmarshal (ecs : ECS7) (ses : List SerEntity) : ECS7 :=
  let ents := ses.foldl (fun acc se =>
    match assocFind ecs.metaCache se.stype with
    | some meta => acc ++ [reconstructEntity ecs meta se]
    | none => acc) []
  let counter :=
    match ents.getLast? with
    | some e => (e.entId + 1) % u64
    | none => 0
  { ecs with entities := ents, idCounter := counter }

theorem unmarshal_loop_filterMap (ecs : ECS7) :
    ∀ (ses : List SerEntity) (acc : List MEntity),
      ses.foldl (fun acc se =>
        match assocFind ecs.metaCache se.stype with
        | some meta => acc ++ [reconstructEntity ecs meta se]
        | none => acc) acc
      = acc ++ ses.filterMap (fun se =>
          (assocFind ecs.metaCache se.stype).map
            (fun meta => reconstructEntity ecs meta se))
  | [], acc => by simp
  | se :: ses, acc => by
    rw [List.foldl_cons, List.filterMap_cons]
    cases h : assocFind ecs.metaCache se.stype with
    | none => simp [unmarshal_loop_filterMap ecs ses]
    | some meta => simp [unmarshal_loop_filterMap ecs ses]

/-- C7 amended: after `Unmarshal`, the live collection consists exactly of
the reconstructed imported entities — the input entries whose type name is
cached, reconstructed in input order — and the identity allocator counter
equals the identifier of the LAST reconstructed entity plus one (zero when
nothing was reconstructed); consequently the next identifier handed out is
the last imported identifier plus two (mod `2^64`), not the maximum plus
one, and the counter position depends on the input order. -/
theorem unmarshal_spec (ecs : ECS7) (ses : List SerEntity) :
    (unmarshal ecs ses).entities
      = ses.filterMap (fun se =>
          (assocFind ecs.metaCache se.stype).map
            (fun meta => reconstructEntity ecs meta se))
    ∧ (unmarshal ecs ses).idCounter
      = (((unmarshal ecs ses).entities.getLast?).map
          (fun e => (e.entId + 1) % u64)).getD 0
    ∧ (∀ e : MEntity, (unmarshal ecs ses).entities.getLast? = some e →
        (nextId7 (unmarshal ecs ses)).2 = (e.entId + 2) % u64) := by
  have hents : (unmarshal ecs ses).entities
      = ses.filterMap (fun se =>
          (assocFind ecs.metaCache se.stype).map
            (fun meta => reconstructEntity ecs meta se)) := by
    show ses.foldl _ [] = _
    rw [unmarshal_loop_filterMap ecs ses []]
    rfl
  refine ⟨hents, ?_, ?_⟩
  · show (match (unmarshal ecs ses).entities.getLast? with
      | some e => (e.entId + 1) % u64
      | none => 0) = _
    cases (unmarshal ecs ses).entities.getLast? <;> rfl
  · intro e hlast
    show ((unmarshal ecs ses).idCounter + 1) % u64 = (e.entId + 2) % u64
    have hcnt : (unmarshal ecs ses).idCounter = (e.entId + 1) % u64 := by
      show (match (unmarshal ecs ses).entities.getLast? with
        | some e => (e.entId + 1) % u64
        | none => 0) = _
      rw [hlast]
    rw [hcnt, Nat.mod_add_mod]


/-- A serialization-revision store with one cached static type `"Unit"`. -/
def demoECS7 : ECS7 :=
  { idCounter := 0, entities := [], metaCache := [("Unit", ⟨["Name"], false⟩)],
    compMetaCache := [], routines := 1 }

/-- A serialized `Unit` entity with the given id. -/
def demoSer (id : Nat) : SerEntity :=
  { sid := id, stype := "Unit", scomps := [("Name", 7)] }

/-- Witness for `unmarshal_spec`: importing `[{id 1}, {id 3}]` of a cached
type leaves the counter at `4` and the next handed-out identifier is `5`. -/
theorem unmarshal_spec_witness :
    ((unmarshal demoECS7 [demoSer 1, demoSer 3]).entities.getLast?
        = some (reconstructEntity demoECS7 ⟨["Name"], false⟩ (demoSer 3)))
    ∧ ((unmarshal demoECS7 [demoSer 1, demoSer 3]).entities
        = [demoSer 1, demoSer 3].filterMap (fun se =>
            (assocFind demoECS7.metaCache se.stype).map
              (fun meta => reconstructEntity demoECS7 meta se))
      ∧ (unmarshal demoECS7 [demoSer 1, demoSer 3]).idCounter
        = (((unmarshal demoECS7 [demoSer 1, demoSer 3]).entities.getLast?).map
            (fun e => (e.entId + 1) % u64)).getD 0
      ∧ (nextId7 (unmarshal demoECS7 [demoSer 1, demoSer 3])).2
        = ((reconstructEntity demoECS7 ⟨["Name"], false⟩ (demoSer 3)).entId + 2) % u64) :=
  ⟨by decide,
    ⟨(unmarshal_spec demoECS7 [demoSer 1, demoSer 3]).1,
     (unmarshal_spec demoECS7 [demoSer 1, demoSer 3]).2.1,
     (unmarshal_spec demoECS7 [demoSer 1, demoSer 3]).2.2
       (reconstructEntity demoECS7 ⟨["Name"], false⟩ (demoSer 3)) (by decide)⟩⟩

/-- C7 counterexample: the claim as stated is false at concrete inputs.
With one cached type `"Unit"` and imports of ids `{1, 3}` (maximum `3`, so
the claim demands that the next handed-out identifier be `4`): importing
`[1, 3]` in sorted order hands out `5` next, and importing `[3, 1]` leaves
the counter at `2` (not `4`) and hands out `3` next — the allocator follows
the LAST imported entity, offset by the counter's pre-increment. -/
theorem unmarshal_claim_counterexample :
    ((nextId7 (unmarshal demoECS7 [demoSer 1, demoSer 3])).2 = 5
      ∧ (nextId7 (unmarshal demoECS7 [demoSer 1, demoSer 3])).2 ≠ 3 + 1)
    ∧ ((unmarshal demoECS7 [demoSer 3, demoSer 1]).idCounter = 2
      ∧ (unmarshal demoECS7 [demoSer 3, demoSer 1]).idCounter ≠ 3 + 1
      ∧ (nextId7 (unmarshal demoECS7 [demoSer 3, demoSer 1])).2 = 3
      ∧ (nextId7 (unmarshal demoECS7 [demoSer 3, demoSer 1])).2 ≠ 3 + 1) := by
  refine ⟨⟨by decide, by decide⟩, by decide, by decide, by decide, by decide⟩

/-!
## Concrete store for the query-engine witnesses

`wUnit` declares `Pos` statically, `wDyn` carries `Pos` only in its dynamic
component table, and `wClone` has exactly the same component set as `wUnit`
under a different concrete type name.  Two scan workers are configured.
-/

def wUnit : MEntity :=
  { entId := 1, typeName := "Unit", fieldNames := ["BaseEntity", "Pos", "Name"],
    staticComps := [("Pos", 1), ("Name", 2)], isDynamic := false, components := none }

def wDyn : MEntity :=
  { entId := 2, typeName := "DynamicUnit",
    fieldNames := ["BaseDynamicEntity", "Name"],
    staticComps := [("Name", 3)], isDynamic := true,
    components := some [("Pos", 4)] }

def wClone : MEntity :=
  { entId := 3, typeName := "UnitClone", fieldNames := ["BaseEntity", "Pos", "Name"],
    staticComps := [("Pos", 5), ("Name", 6)], isDynamic := false, components := none }

def wStore : ECS :=
  { idCounter := 3, entities := [wUnit, wDyn, wClone],
    metaCache := [("Unit", ["BaseEntity", "Pos", "Name"]),
                  ("DynamicUnit", ["BaseDynamicEntity", "Name"]),
                  ("UnitClone", ["BaseEntity", "Pos", "Name"])],
    routines := 2 }

/-- Witness for `iterate_exact`: with two workers, querying `Pos` over the
mixed store returns the statically declaring entity, the dynamically
attaching entity and the clone — exactly the sequential filter. -/
theorem iterate_exact_witness :
    1 ≤ wStore.routines
    ∧ iterate wStore ["Pos"]
        = wStore.entities.filter (entityMatches wStore.metaCache ["Pos"])
    ∧ iterate wStore ["Pos"] = [wUnit, wDyn, wClone] :=
  ⟨by decide, (iterate_exact wStore ["Pos"] (by decide)).1, by decide⟩

/-- Witness for `iterateSpecific_exact`: `wClone` has the same component
names as `wUnit` but a different concrete type name, and is excluded. -/
theorem iterateSpecific_exact_witness :
    1 ≤ wStore.routines
    ∧ iterateSpecific wStore "Unit"
        = wStore.entities.filter (fun e => decide (e.typeName = "Unit"))
    ∧ iterateSpecific wStore "Unit" = [wUnit]
    ∧ wClone.staticComps.map (·.1) = wUnit.staticComps.map (·.1)
    ∧ wClone.typeName ≠ wUnit.typeName :=
  ⟨by decide, (iterateSpecific_exact wStore "Unit" (by decide)).1, by decide,
    by decide, by decide⟩

end Kinshi
